import Mathlib

/-!
Verification of the aloop working-memory engine

Shallow embedding of the memory subsystem of the `aloop` agent framework
(`src/memory/`), together with theorems settling the specified properties.

Modelling conventions: Python object state becomes explicit record passing;
message lists are Lean lists in insertion order; Python `int` arithmetic is
`Nat`/`Int` (CPython integers do not overflow); the Python floats appearing
in threshold arithmetic are modelled as `ℚ` (the ratios involved are exact
decimals, and only comparisons against integers matter).
-/

namespace Aloop

/-- Message roles of `LLMMessage` (`llm/message_types.py`). -/
inductive Role
  | system
  | user
  | assistant
  | tool
deriving DecidableEq, Repr

/-- A single tool call in OpenAI format (`ToolCallBlock` in
`llm/message_types.py`): an `id`, the called function's `name`, and its
JSON-encoded `arguments` string. -/
structure ToolCallBlock where
  id : String
  function_name : String
  arguments : String
deriving DecidableEq, Repr

/-- `LLMMessage` (`llm/message_types.py`): a role, optional text content,
a list of tool calls (the empty list models Python's `None` / `[]`), and the
tool-role fields `tool_call_id` and `name`. -/
structure LLMMessage where
  role : Role
  content : Option String := none
  tool_calls : List ToolCallBlock := []
  tool_call_id : Option String := none
  name : Option String := none
deriving DecidableEq, Repr

/-!
ShortTermMemory (`src/memory/short_term.py`)

The buffer state is just the `messages` list; `max_size` is passed where
needed.  Each mutating method becomes a function on the list.
-/

/-- `ShortTermMemory.remove_first(count)`: clamp `count` to the current
length, drop that many messages from the front and return them together with
the surviving list (`removed = messages[:count]`, `rest = messages[count:]`). -/
def remove_first (count : ℕ) (msgs : List LLMMessage) : List LLMMessage × List LLMMessage :=
  let c := min count msgs.length
  (msgs.take c, msgs.drop c)

/-- `ShortTermMemory.remove_last(count)`: clamp `count` to the current
length; if the clamped count is positive, keep only `messages[:-count]`. -/
def remove_last (count : ℕ) (msgs : List LLMMessage) : List LLMMessage :=
  let c := min count msgs.length
  if 0 < c then msgs.take (msgs.length - c) else msgs

/-- `ShortTermMemory.is_full()`: true iff the message count has reached the
emergency cap `max_size`. -/
def is_full (max_size : ℕ) (msgs : List LLMMessage) : Bool :=
  decide (max_size ≤ msgs.length)

/-!
Compression policy (`MemoryManager._find_safe_split_point`,
`MemoryManager._get_compression_urgency` in `src/memory/manager.py`)
-/

/-- The straddle check inside the scan of `_find_safe_split_point`: the pair
`(assistant_idx, response_idx)` is broken by candidate `c` iff
`assistant_idx < c <= response_idx` or `response_idx < c <= assistant_idx`. -/
def pair_straddles (c : ℕ) (p : ℕ × ℕ) : Bool :=
  (decide (p.1 < c) && decide (c ≤ p.2)) || (decide (p.2 < c) && decide (c ≤ p.1))

/-- A candidate split index is safe iff no tool pair straddles it
(the inner `for`-loop of `_find_safe_split_point` with its `safe` flag). -/
def candidate_safe (pairs : List (ℕ × ℕ)) (c : ℕ) : Bool :=
  pairs.all fun p => !pair_straddles c p

/-- The backward scan `for candidate in range(target, 0, -1)` of
`_find_safe_split_point`: return the first (largest) safe candidate,
or `0` when none is safe. -/
def scan_for_split (pairs : List (ℕ × ℕ)) : ℕ → ℕ
  | 0 => 0
  | c + 1 => if candidate_safe pairs (c + 1) then c + 1 else scan_for_split pairs c

/-- `MemoryManager._find_safe_split_point(messages)`.  The function uses the
messages only through `len(messages)` and through the index pairs returned by
`compressor._find_tool_pairs(messages)`; the pair list is therefore taken as
an argument.  `target = len // 2`; if `target <= 0` return `0`, otherwise
scan backward from `target`. -/
def find_safe_split_point (pairs : List (ℕ × ℕ)) (n : ℕ) : ℕ :=
  let target := n / 2
  if target = 0 then 0 else scan_for_split pairs target

/-- The specification-level safety predicate for a split index: every
assistant/tool-result index pair lies entirely on one side of `c`. -/
def SplitSafe (pairs : List (ℕ × ℕ)) (c : ℕ) : Prop :=
  ∀ p ∈ pairs, (p.1 < c ∧ p.2 < c) ∨ (c ≤ p.1 ∧ c ≤ p.2)

/-- The urgency levels of `CompressionUrgency` in `src/memory/manager.py`. -/
inductive Urgency
  | none
  | soft
  | hard
  | emergency
deriving DecidableEq, Repr

/-- The inputs read by `MemoryManager._get_compression_urgency`:
`Config.MEMORY_ENABLED`, `short_term.is_full()`, `self.current_tokens`,
`Config.MEMORY_COMPRESSION_THRESHOLD` and `Config.MEMORY_SOFT_THRESHOLD_RATIO`. -/
structure PolicyInput where
  memory_enabled : Bool
  buffer_full : Bool
  current_tokens : ℕ
  compression_threshold : ℕ
  soft_threshold_ratio : ℚ

/-- Python `int(x)` on a float: truncation toward zero. -/
def py_int_of_rat (q : ℚ) : ℤ :=
  if q < 0 then ⌈q⌉ else ⌊q⌋

/-- `int(Config.MEMORY_COMPRESSION_THRESHOLD * Config.MEMORY_SOFT_THRESHOLD_RATIO)`. -/
def soft_threshold (i : PolicyInput) : ℤ :=
  py_int_of_rat ((i.compression_threshold : ℚ) * i.soft_threshold_ratio)

/-- `MemoryManager._get_compression_urgency` (`src/memory/manager.py`). -/
def get_compression_urgency (i : PolicyInput) : Urgency :=
  if !i.memory_enabled then Urgency.none
  else if i.buffer_full then Urgency.emergency
  else if i.compression_threshold < i.current_tokens then Urgency.hard
  else if soft_threshold i < (i.current_tokens : ℤ) then Urgency.soft
  else Urgency.none

/-!
Long-term memory consolidation
(`LongTermMemoryConsolidator._parse_response` in
`src/memory/long_term/consolidator.py`)
-/

/-- `MemoryCategory` (`src/memory/long_term/store.py`). -/
inductive MemoryCategory
  | decisions
  | preferences
  | facts
deriving DecidableEq, Repr

/-- The YAML value found under one category key of the consolidation
response: either a list (entries given as their Python `str(e)` renderings,
with Python truthiness modelled as non-emptiness of the rendered string) or
some non-list value. -/
inductive CatVal
  | list (entries : List String)
  | nonList
deriving DecidableEq, Repr

/-- Outcome of `yaml.safe_load` on the consolidation response: the load
raised, produced a non-mapping value, or produced a mapping, read through
`data.get(cat.value, [])` (`none` models a missing key). -/
inductive ParseOutcome
  | failure
  | nonMapping
  | mapping (m : MemoryCategory → Option CatVal)

/-- `LongTermMemoryConsolidator._parse_response(text, original)`
(`src/memory/long_term/consolidator.py`), with the `yaml.safe_load`
result abstracted as a `ParseOutcome`: parse failure or a non-mapping falls
back to the original; for a mapping, a missing key yields `[]` (the
`data.get(cat.value, [])` default is a list), a list value yields its truthy
entries, and a non-list value keeps the original entries of that category. -/
def parse_response (outcome : ParseOutcome)
    (original : MemoryCategory → List String) : MemoryCategory → List String :=
  match outcome with
  | ParseOutcome.failure => original
  | ParseOutcome.nonMapping => original
  | ParseOutcome.mapping m => fun cat =>
      match m cat with
      | some (CatVal.list es) => es.filter fun e => !(e == "")
      | some CatVal.nonList => original cat
      | none => []

/-- A concrete response mapping for the C7 witness, mirroring end-to-end
scenario 7 of the spec: only `decisions` is present. -/
def wit_mapping : MemoryCategory → Option CatVal
  | MemoryCategory.decisions => some (CatVal.list ["merged"])
  | MemoryCategory.preferences => none
  | MemoryCategory.facts => none

/-- The original entries used by the C7 witness. -/
def wit_original : MemoryCategory → List String
  | MemoryCategory.decisions => ["d1", "d2"]
  | MemoryCategory.preferences => ["p1"]
  | MemoryCategory.facts => ["f1"]

/-!
Long-term keyword retrieval scoring
(`LongTermMemory._calculate_score` in `src/memory/long_term.py`)
-/

/-- The recency component of `LongTermMemory._calculate_score`
(`src/memory/long_term.py`, the block commented `# Decay over 30 days`):
`recency_score = max(0, 10 - (days_old / 30))` where `days_old` is the
whole-day age of the memory. -/
def recency_score (days_old : ℕ) : ℚ :=
  max 0 (10 - (days_old : ℚ) / 30)

/-!
MemoryManager (`src/memory/manager.py`)

The manager's mutable attributes become a `ManagerState` record.  The token
estimator `token_tracker.count_message_tokens(msg, provider, model)` is a
deterministic function of the message for a fixed provider/model and is
passed as a parameter `est`.  The LLM summariser is asynchronous and
fallible: its result is passed to `compress` as an `Option CompressedMemory`
(`none` models the call raising), and the messages appended concurrently to
the short-term buffer during the `await` are passed as `extra`.
-/

/-- `CompressedMemory` (`src/memory/types.py`); the fields the manager's
splice logic reads (`created_at`, `compression_ratio` and `metadata` are
never read on the embedded paths and are omitted). -/
structure CompressedMemory where
  summary : String
  preserved_messages : List LLMMessage := []
  original_message_count : ℕ := 0
  compressed_tokens : ℕ := 0
  original_tokens : ℕ := 0
deriving DecidableEq, Repr

/-- `CompressedMemory.token_savings`: `original_tokens - compressed_tokens`
(a Python `int`, possibly negative). -/
def CompressedMemory.token_savings (c : CompressedMemory) : ℤ :=
  (c.original_tokens : ℤ) - (c.compressed_tokens : ℤ)

/-- Modelled from the spec: the compressor (`src/memory/compressor.py`,
class `WorkingMemoryCompressor`) is not under `src/`; the manager iterates
over `compressed.messages`.  Spec §4.5 fixes this output as one new
summary message followed by the preserved tail (splice step 3:
`[summary_message] ++ preserved_tail`), with §3 choosing the assistant role
for the summary message. -/
def CompressedMemory.messages (c : CompressedMemory) : List LLMMessage :=
  { role := Role.assistant, content := some c.summary } :: c.preserved_messages

/-- The mutable attributes of `MemoryManager` (`src/memory/manager.py`),
with `create_session_calls` counting the invocations of
`store.create_session()` performed by `_ensure_session`. -/
structure ManagerState where
  system_messages : List LLMMessage := []
  buffer : List LLMMessage := []
  session_created : Bool := false
  create_session_calls : ℕ := 0
  current_tokens : ℕ := 0
  was_compressed_last_iteration : Bool := false
  last_compression_savings : ℤ := 0
  compression_count : ℕ := 0
  last_api_context_tokens : Option ℕ := none
  estimated_delta_tokens : ℕ := 0
  total_input_tokens : ℕ := 0
  total_output_tokens : ℕ := 0
  compression_savings : ℤ := 0
  compression_cost : ℕ := 0
deriving DecidableEq, Repr

/-- `MemoryManager.__init__` with `session_id=None`: empty buffers and
counters, no session created. -/
def initial_manager_state : ManagerState := {}

/-- `MemoryManager.get_context_for_llm`: system messages followed by the
short-term messages. -/
def get_context_for_llm (st : ManagerState) : List LLMMessage :=
  st.system_messages ++ st.buffer

/-- `MemoryManager._recalculate_current_tokens`: per-message estimates summed
over system messages and the short-term buffer. -/
def recalculate_current_tokens (est : LLMMessage → ℕ) (st : ManagerState) : ℕ :=
  (st.system_messages.map est).sum + (st.buffer.map est).sum

/-- `MemoryManager._ensure_session`: call `store.create_session()` iff no
session exists yet (success assumed; the store is external I/O). -/
def ensure_session (st : ManagerState) : ManagerState :=
  if st.session_created then st
  else { st with
    session_created := true,
    create_session_calls := st.create_session_calls + 1 }

/-- The `current_tokens` refresh at the end of `MemoryManager.add_message`
(lines 241-246): grounded as `last_api + delta` when an API total is known,
full re-estimation otherwise. -/
def update_current_tokens (est : LLMMessage → ℕ) (st : ManagerState) : ManagerState :=
  match st.last_api_context_tokens with
  | some x => { st with current_tokens := x + st.estimated_delta_tokens }
  | none => { st with current_tokens := recalculate_current_tokens est st }

/-- `MemoryManager.add_message` (`src/memory/manager.py` lines 196-253):
ensure the session, route system messages to `system_messages` and return,
otherwise update the token accounting (API-grounded when `actual_tokens` is
passed, estimated delta otherwise), append to the short-term buffer and
refresh `current_tokens`.  The trailing compression trigger (lines 255-260)
dispatches to `compress`, embedded separately below. -/
def add_message (est : LLMMessage → ℕ) (st : ManagerState)
    (message : LLMMessage) (actual_tokens : Option (ℕ × ℕ)) : ManagerState :=
  let st0 := ensure_session st
  if message.role = Role.system then
    { st0 with system_messages := st0.system_messages ++ [message] }
  else
    let st1 :=
      match actual_tokens with
      | some (input_tokens, output_tokens) =>
          { st0 with
            total_input_tokens := st0.total_input_tokens + input_tokens,
            total_output_tokens := st0.total_output_tokens + output_tokens,
            last_api_context_tokens := some (input_tokens + output_tokens),
            estimated_delta_tokens := 0 }
      | none =>
          { st0 with
            estimated_delta_tokens := st0.estimated_delta_tokens + est message }
    let st2 := { st1 with buffer := st1.buffer ++ [message] }
    update_current_tokens est st2

/-- A sequence of `add_message` calls, oldest first. -/
def add_messages (est : LLMMessage → ℕ) (st : ManagerState) :
    List (LLMMessage × Option (ℕ × ℕ)) → ManagerState
  | [] => st
  | (m, a) :: rest => add_messages est (add_message est st m a) rest

/-- The success path shared tail of `MemoryManager.compress` (full
compression, lines 338-397): bump the compression counters and ledgers,
remove the consumed snapshot from the live buffer (which is
`snapshot ++ extra` after the concurrent appends), rebuild the buffer as
summary-plus-preserved followed by the survivors, reset the API-grounded
accounting and recalculate `current_tokens`.  `outcome = none` models the
summariser raising: the `except` branch returns `None` having touched no
state. -/
def compress_full (est : LLMMessage → ℕ) (st : ManagerState)
    (outcome : Option CompressedMemory) (extra : List LLMMessage) :
    Option CompressedMemory × ManagerState :=
  let message_count := st.buffer.length
  match outcome with
  | none => (none, { st with buffer := st.buffer ++ extra })
  | some compressed =>
      let st1 := { st with
        buffer := st.buffer ++ extra,
        compression_count := st.compression_count + 1,
        was_compressed_last_iteration := true,
        last_compression_savings := compressed.token_savings,
        compression_savings := st.compression_savings + compressed.token_savings,
        compression_cost := st.compression_cost + compressed.compressed_tokens }
      let remaining := (remove_first message_count st1.buffer).2
      let st2 := { st1 with
        buffer := compressed.messages ++ remaining,
        last_api_context_tokens := none,
        estimated_delta_tokens := 0 }
      let st3 := { st2 with current_tokens := recalculate_current_tokens est st2 }
      (some compressed, st3)

/-- `MemoryManager._compress_partial` (lines 399-479): compress
`messages[:split]`, keep `messages[split:]`, and splice back
summary-plus-preserved, then the kept messages, then any messages that
arrived during the summarisation.  `outcome = none` models the summariser
raising, as in `compress_full`. -/
def compress_partial_path (est : LLMMessage → ℕ) (st : ManagerState) (split : ℕ)
    (outcome : Option CompressedMemory) (extra : List LLMMessage) :
    Option CompressedMemory × ManagerState :=
  let messages := st.buffer
  let to_keep := messages.drop split
  match outcome with
  | none => (none, { st with buffer := st.buffer ++ extra })
  | some compressed =>
      let st1 := { st with
        buffer := st.buffer ++ extra,
        compression_count := st.compression_count + 1,
        was_compressed_last_iteration := true,
        last_compression_savings := compressed.token_savings,
        compression_savings := st.compression_savings + compressed.token_savings,
        compression_cost := st.compression_cost + compressed.compressed_tokens }
      let arrived := (remove_first messages.length st1.buffer).2
      let st2 := { st1 with
        buffer := compressed.messages ++ to_keep ++ arrived,
        last_api_context_tokens := none,
        estimated_delta_tokens := 0 }
      let st3 := { st2 with current_tokens := recalculate_current_tokens est st2 }
      (some compressed, st3)

/-- `MemoryManager.compress` (lines 303-397): nothing to do on an empty
buffer; for `SOFT` urgency with more than 4 messages and a usable safe split
point, compress partially; otherwise compress the full snapshot.  `pairs`
stands for `compressor._find_tool_pairs(messages)` as in
`find_safe_split_point`. -/
def compress (est : LLMMessage → ℕ) (st : ManagerState) (urgency : Urgency)
    (pairs : List (ℕ × ℕ)) (outcome : Option CompressedMemory)
    (extra : List LLMMessage) : Option CompressedMemory × ManagerState :=
  let message_count := st.buffer.length
  if message_count = 0 then (none, st)
  else if urgency = Urgency.soft ∧ 4 < message_count then
    let split := find_safe_split_point pairs message_count
    if 0 < split ∧ split < message_count then
      compress_partial_path est st split outcome extra
    else
      compress_full est st outcome extra
  else
    compress_full est st outcome extra

/-- Modelled from the spec: `llm/content_utils.py`
(`content_has_tool_calls`) is not under `src/`.  Spec §9 fixes message
content to an optional plain string that must not carry tool data, so string
content never encodes tool calls. -/
def content_has_tool_calls (_content : Option String) : Bool := false

/-- `MemoryManager._message_has_tool_calls`: a non-empty `tool_calls` field,
a tool-role message, or legacy tool data inside the content. -/
def message_has_tool_calls (m : LLMMessage) : Bool :=
  !m.tool_calls.isEmpty || m.role == Role.tool || content_has_tool_calls m.content

/-- `MemoryManager.rollback_incomplete_exchange` (lines 692-715): if the
last buffer message is an assistant message with tool calls, remove it and
recalculate the token count; otherwise do nothing. -/
def rollback_incomplete_exchange (est : LLMMessage → ℕ)
    (st : ManagerState) : ManagerState :=
  match st.buffer.getLast? with
  | none => st
  | some last_msg =>
      if last_msg.role = Role.assistant ∧ message_has_tool_calls last_msg = true then
        let st1 := { st with buffer := remove_last 1 st.buffer }
        { st1 with current_tokens := recalculate_current_tokens est st1 }
      else st

/-- Estimator used by the concrete witnesses below. -/
def wit_est : LLMMessage → ℕ := fun _ => 1

/-- A plain user message used by the concrete witnesses below. -/
def wit_user_msg : LLMMessage := { role := Role.user, content := some "read /x" }

/-- A one-message manager state used by the C1 witness. -/
def wit_compress_state : ManagerState := { buffer := [wit_user_msg] }

/-- The compressor output used by the C1 witness. -/
def wit_cm : CompressedMemory := { summary := "SUMMARY" }

/-- An assistant message with one unanswered tool call, used by the rollback
witnesses. -/
def wit_tc_msg : LLMMessage :=
  { role := Role.assistant,
    tool_calls := [{ id := "c1", function_name := "read_file", arguments := "{}" }] }

/-- A buffer ending in two incomplete assistant messages (rollback
counterexample state). -/
def wit_double_incomplete : ManagerState := { buffer := [wit_tc_msg, wit_tc_msg] }

/-- A buffer `[user, incomplete assistant]` (rollback witness state). -/
def wit_rollback_state : ManagerState := { buffer := [wit_user_msg, wit_tc_msg] }

/-- The condition under which `rollback_incomplete_exchange` pops a message,
as a boolean on one message: an assistant message that has tool calls. -/
def incomplete_assistant (m : LLMMessage) : Bool :=
  (m.role == Role.assistant) && message_has_tool_calls m

/-- A buffer whose last two messages are both incomplete assistant messages:
the configuration on which repeated rollback keeps removing. -/
def trailing_incomplete_pair (msgs : List LLMMessage) : Bool :=
  match msgs.getLast?, msgs.dropLast.getLast? with
  | some a, some b => incomplete_assistant a && incomplete_assistant b
  | _, _ => false

/-!
Theorems

Helper lemmas first, then the theorems settling the claims, in the
order of the components above.
-/

lemma remove_first_eq (k : ℕ) (msgs : List LLMMessage) :
    remove_first k msgs = (msgs.take k, msgs.drop k) := by
  unfold remove_first
  rcases le_total k msgs.length with h | h
  · simp [min_eq_left h]
  · simp [min_eq_right h, List.take_of_length_le h, List.drop_eq_nil_of_le h,
      List.take_length, List.drop_length]

lemma remove_last_eq (k : ℕ) (msgs : List LLMMessage) :
    remove_last k msgs = msgs.take (msgs.length - k) := by
  unfold remove_last
  by_cases h : 0 < min k msgs.length
  · rw [if_pos h]
    congr 1
    omega
  · rw [if_neg h]
    have hk : k = 0 ∨ msgs.length = 0 := by omega
    rcases hk with hk | hl
    · simp [hk]
    · have hnil : msgs = [] := List.length_eq_zero.mp hl
      simp [hnil]

/-- **C10.** `remove_first(k)` and `remove_last(k)` are total for every `k`
(including `0` and `k` beyond the current length): both clamp `k` to the
message count, `remove_first` returns exactly the removed prefix in order,
the survivors are exactly the corresponding suffix (so relative order is
preserved and prefix ++ survivors reassembles the original buffer), and an
oversized `k` (any `length + j`) empties the buffer. -/
theorem remove_first_remove_last_total (k : ℕ) (msgs : List LLMMessage) :
    (remove_first k msgs).1 = msgs.take k ∧
    (remove_first k msgs).2 = msgs.drop k ∧
    (remove_first k msgs).1 ++ (remove_first k msgs).2 = msgs ∧
    remove_last k msgs = msgs.take (msgs.length - k) ∧
    (remove_first (msgs.length + k) msgs).1 = msgs ∧
    (remove_first (msgs.length + k) msgs).2 = [] ∧
    remove_last (msgs.length + k) msgs = [] := by
  refine ⟨?_, ?_, ?_, remove_last_eq k msgs, ?_, ?_, ?_⟩
  · rw [remove_first_eq]
  · rw [remove_first_eq]
  · rw [remove_first_eq]; exact List.take_append_drop _ _
  · rw [remove_first_eq]
    exact List.take_of_length_le (Nat.le_add_right _ _)
  · rw [remove_first_eq]
    exact List.drop_eq_nil_of_le (Nat.le_add_right _ _)
  · rw [remove_last_eq]
    simp [Nat.sub_eq_zero_of_le (Nat.le_add_right _ _)]

lemma candidate_safe_iff (pairs : List (ℕ × ℕ)) (c : ℕ) :
    candidate_safe pairs c = true ↔ SplitSafe pairs c := by
  unfold candidate_safe SplitSafe pair_straddles
  simp only [List.all_eq_true, Bool.not_eq_true', Bool.or_eq_false_iff,
    Bool.and_eq_false_iff, decide_eq_false_iff_not, not_lt, not_le]
  constructor
  · intro h p hp
    have := h p hp
    omega
  · intro h p hp
    have := h p hp
    omega

lemma scan_for_split_spec (pairs : List (ℕ × ℕ)) (m : ℕ) :
    (scan_for_split pairs m = 0 ∧ ∀ j, 0 < j → j ≤ m → ¬ SplitSafe pairs j) ∨
    (0 < scan_for_split pairs m ∧ scan_for_split pairs m ≤ m ∧
      SplitSafe pairs (scan_for_split pairs m) ∧
      ∀ j, scan_for_split pairs m < j → j ≤ m → ¬ SplitSafe pairs j) := by
  induction m with
  | zero =>
    left
    exact ⟨rfl, fun j hj hj2 => absurd hj2 (by omega)⟩
  | succ c ih =>
    by_cases h : candidate_safe pairs (c + 1) = true
    · right
      have hstep : scan_for_split pairs (c + 1) =
          if candidate_safe pairs (c + 1) then c + 1 else scan_for_split pairs c := rfl
      have hval : scan_for_split pairs (c + 1) = c + 1 := by
        rw [hstep, if_pos h]
      rw [hval]
      exact ⟨by omega, le_refl _, (candidate_safe_iff pairs (c + 1)).mp h,
        fun j hj1 hj2 => absurd hj1 (by omega)⟩
    · have hns : ¬ SplitSafe pairs (c + 1) := fun hs =>
        h ((candidate_safe_iff pairs (c + 1)).mpr hs)
      have hstep : scan_for_split pairs (c + 1) =
          if candidate_safe pairs (c + 1) then c + 1 else scan_for_split pairs c := rfl
      have hval : scan_for_split pairs (c + 1) = scan_for_split pairs c := by
        rw [hstep, if_neg h]
      rw [hval]
      rcases ih with ⟨h0, hall⟩ | ⟨h1, h2, h3, h4⟩
      · left
        refine ⟨h0, fun j hj hj2 => ?_⟩
        by_cases hje : j = c + 1
        · exact hje ▸ hns
        · exact hall j hj (by omega)
      · right
        refine ⟨h1, by omega, h3, fun j hj hj2 => ?_⟩
        by_cases hje : j = c + 1
        · exact hje ▸ hns
        · exact h4 j hj (by omega)

/-- **C4.** `_find_safe_split_point` returns the largest index `k` with
`0 < k ≤ len/2` such that no assistant/tool-result pair has its assistant
index on one side of `k` and its tool-result index on the other, and returns
`0` when no such `k` exists; in particular (third conjunct of the first
disjunct) a positive returned split never separates an assistant tool call
from its paired tool response. -/
theorem find_safe_split_point_spec (pairs : List (ℕ × ℕ)) (n : ℕ) :
    (0 < find_safe_split_point pairs n ∧
      find_safe_split_point pairs n ≤ n / 2 ∧
      SplitSafe pairs (find_safe_split_point pairs n) ∧
      ∀ j, find_safe_split_point pairs n < j → j ≤ n / 2 → ¬ SplitSafe pairs j) ∨
    (find_safe_split_point pairs n = 0 ∧
      ∀ j, 0 < j → j ≤ n / 2 → ¬ SplitSafe pairs j) := by
  unfold find_safe_split_point
  by_cases h : n / 2 = 0
  · right
    rw [if_pos h]
    exact ⟨rfl, fun j hj hj2 => absurd hj2 (by omega)⟩
  · rw [if_neg h]
    rcases scan_for_split_spec pairs (n / 2) with ⟨h0, hall⟩ | hgood
    · right
      exact ⟨h0, hall⟩
    · left
      exact hgood

/-- **C3.** Characterisation of `_get_compression_urgency` with the priority
order of the claim: `emergency` exactly when enabled and the buffer is full
(regardless of token counts); `hard` exactly when enabled, not full and
`T > H`; `soft` exactly when enabled, not full, `T ≤ H` and `T > S = r·H`;
`none` exactly when disabled, or enabled with none of the above. -/
theorem get_compression_urgency_spec (i : PolicyInput)
    (hr : 0 ≤ i.soft_threshold_ratio) :
    (get_compression_urgency i = Urgency.emergency ↔
      i.memory_enabled = true ∧ i.buffer_full = true) ∧
    (get_compression_urgency i = Urgency.hard ↔
      i.memory_enabled = true ∧ i.buffer_full = false ∧
        i.compression_threshold < i.current_tokens) ∧
    (get_compression_urgency i = Urgency.soft ↔
      i.memory_enabled = true ∧ i.buffer_full = false ∧
        i.current_tokens ≤ i.compression_threshold ∧
        (i.compression_threshold : ℚ) * i.soft_threshold_ratio < (i.current_tokens : ℚ)) ∧
    (get_compression_urgency i = Urgency.none ↔
      i.memory_enabled = false ∨
        (i.memory_enabled = true ∧ i.buffer_full = false ∧
          i.current_tokens ≤ i.compression_threshold ∧
          (i.current_tokens : ℚ) ≤ (i.compression_threshold : ℚ) * i.soft_threshold_ratio)) := by
  have hprod : 0 ≤ (i.compression_threshold : ℚ) * i.soft_threshold_ratio :=
    mul_nonneg (by positivity) hr
  have hsoft : soft_threshold i =
      ⌊(i.compression_threshold : ℚ) * i.soft_threshold_ratio⌋ := by
    unfold soft_threshold py_int_of_rat
    rw [if_neg (not_lt.mpr hprod)]
  have hcmp : (soft_threshold i < (i.current_tokens : ℤ)) ↔
      (i.compression_threshold : ℚ) * i.soft_threshold_ratio < (i.current_tokens : ℚ) := by
    rw [hsoft, Int.floor_lt]
    constructor
    · intro h
      exact_mod_cast h
    · intro h
      exact_mod_cast h
  by_cases he : i.memory_enabled = true
  · by_cases hf : i.buffer_full = true
    · have hU : get_compression_urgency i = Urgency.emergency := by
        unfold get_compression_urgency
        simp [he, hf]
      rw [hU]
      simp [he, hf]
    · have hf' : i.buffer_full = false := by simpa using hf
      by_cases hh : i.compression_threshold < i.current_tokens
      · have hU : get_compression_urgency i = Urgency.hard := by
          unfold get_compression_urgency
          simp [he, hf', hh]
        have hh' : ¬ i.current_tokens ≤ i.compression_threshold := by omega
        rw [hU]
        simp [he, hf', hh, hh']
      · have hle : i.current_tokens ≤ i.compression_threshold := by omega
        by_cases hs : soft_threshold i < (i.current_tokens : ℤ)
        · have hU : get_compression_urgency i = Urgency.soft := by
            unfold get_compression_urgency
            simp [he, hf', hh, hs]
          have hq := hcmp.mp hs
          have hnq : ¬ ((i.current_tokens : ℚ) ≤
              (i.compression_threshold : ℚ) * i.soft_threshold_ratio) := not_le.mpr hq
          rw [hU]
          simp [he, hf', hh, hle, hq, hnq]
        · have hU : get_compression_urgency i = Urgency.none := by
            unfold get_compression_urgency
            simp [he, hf', hh, hs]
          have hqn : ¬ ((i.compression_threshold : ℚ) * i.soft_threshold_ratio <
              (i.current_tokens : ℚ)) := fun hq => hs (hcmp.mpr hq)
          have hqle : (i.current_tokens : ℚ) ≤
              (i.compression_threshold : ℚ) * i.soft_threshold_ratio := not_lt.mp hqn
          rw [hU]
          simp [he, hf', hh, hle, hqn, hqle]
  · have he' : i.memory_enabled = false := by simpa using he
    have hU : get_compression_urgency i = Urgency.none := by
      unfold get_compression_urgency
      simp [he']
    rw [hU]
    simp [he']

/-- Witness for C3 at a concrete input: enabled, buffer not full, `H = 100`,
`r = 3/5`, `T = 70`, which is above the soft and below the hard threshold,
so the characterisation yields `soft`. -/
theorem get_compression_urgency_spec_witness :
    get_compression_urgency ⟨true, false, 70, 100, 3 / 5⟩ = Urgency.soft :=
  ((get_compression_urgency_spec ⟨true, false, 70, 100, 3 / 5⟩ (by norm_num)).2.2.1).mpr
    ⟨rfl, rfl, by norm_num, by norm_num⟩

/-- **C7.** A consolidation response that fails to parse as YAML, or parses
to a non-mapping, leaves every category's entries unchanged; in a mapping
response, every missing category comes back as the empty list (hard replace)
and every present list-valued category is taken from the response. -/
theorem parse_response_spec (original : MemoryCategory → List String) :
    (∀ cat, parse_response ParseOutcome.failure original cat = original cat) ∧
    (∀ cat, parse_response ParseOutcome.nonMapping original cat = original cat) ∧
    (∀ m cat, m cat = none →
      parse_response (ParseOutcome.mapping m) original cat = []) ∧
    (∀ m cat es, m cat = some (CatVal.list es) → (∀ e ∈ es, e ≠ "") →
      parse_response (ParseOutcome.mapping m) original cat = es) := by
  refine ⟨fun cat => rfl, fun cat => rfl, fun m cat hm => ?_, fun m cat es hm hes => ?_⟩
  · show (match m cat with
      | some (CatVal.list es) => es.filter fun e => !(e == "")
      | some CatVal.nonList => original cat
      | none => []) = []
    rw [hm]
  · show (match m cat with
      | some (CatVal.list es) => es.filter fun e => !(e == "")
      | some CatVal.nonList => original cat
      | none => []) = es
    rw [hm]
    exact List.filter_eq_self.mpr fun e he => by
      simpa using hes e he

/-- Witness for C7: on a partial response containing only
`decisions: ["merged"]`, the present category is replaced and the missing
ones become empty. -/
theorem parse_response_spec_witness :
    parse_response (ParseOutcome.mapping wit_mapping) wit_original
      MemoryCategory.decisions = ["merged"] ∧
    parse_response (ParseOutcome.mapping wit_mapping) wit_original
      MemoryCategory.preferences = [] :=
  ⟨(parse_response_spec wit_original).2.2.2 wit_mapping MemoryCategory.decisions
      ["merged"] rfl (by decide),
   (parse_response_spec wit_original).2.2.1 wit_mapping MemoryCategory.preferences rfl⟩

/-- **C8.** Evaluation of the recency component at the failing input: a
memory exactly 30 days old still receives a recency bonus of `9` points
(the implemented formula only reaches `0` at 300 days), so the claimed
linear decay to zero over 30 days does not hold; the `≤ 10` bound does. -/
theorem recency_score_decay :
    recency_score 30 = 9 ∧
    recency_score 30 ≠ 0 ∧
    recency_score 300 = 0 ∧
    ∀ d : ℕ, recency_score d ≤ 10 := by
  refine ⟨by norm_num [recency_score], by norm_num [recency_score],
    by norm_num [recency_score], fun d => ?_⟩
  unfold recency_score
  apply max_le
  · norm_num
  · have : (0 : ℚ) ≤ (d : ℚ) / 30 := by positivity
    linarith

lemma compress_full_success (est : LLMMessage → ℕ) (st : ManagerState)
    (cm : CompressedMemory) (extra : List LLMMessage) :
    (compress_full est st (some cm) extra).1 = some cm ∧
    (compress_full est st (some cm) extra).2.buffer = cm.messages ++ extra ∧
    (compress_full est st (some cm) extra).2.system_messages = st.system_messages := by
  refine ⟨rfl, ?_, rfl⟩
  show cm.messages ++ (remove_first st.buffer.length (st.buffer ++ extra)).2 =
    cm.messages ++ extra
  rw [remove_first_eq]
  simp

lemma compress_partial_path_success (est : LLMMessage → ℕ) (st : ManagerState)
    (split : ℕ) (cm : CompressedMemory) (extra : List LLMMessage) :
    (compress_partial_path est st split (some cm) extra).1 = some cm ∧
    (compress_partial_path est st split (some cm) extra).2.buffer =
      cm.messages ++ st.buffer.drop split ++ extra ∧
    (compress_partial_path est st split (some cm) extra).2.system_messages =
      st.system_messages := by
  refine ⟨rfl, ?_, rfl⟩
  show cm.messages ++ st.buffer.drop split ++
      (remove_first st.buffer.length (st.buffer ++ extra)).2 =
    cm.messages ++ st.buffer.drop split ++ extra
  rw [remove_first_eq]
  simp

/-- **C1.** Whenever a compression (full or partial) succeeds, the
post-compression `get_context_for_llm()` is exactly the system messages,
then the compressor's output messages (summary followed by the preserved
tail), then the messages kept out of the consumed prefix, then the messages
appended concurrently during the asynchronous summarisation — all in their
original relative order (the pre-compression buffer splits as
`consumed ++ kept`). -/
theorem compress_success_splice (est : LLMMessage → ℕ) (st : ManagerState)
    (urgency : Urgency) (pairs : List (ℕ × ℕ)) (cm : CompressedMemory)
    (extra : List LLMMessage) (out : CompressedMemory) (st' : ManagerState)
    (h : compress est st urgency pairs (some cm) extra = (some out, st')) :
    out = cm ∧
    ∃ consumed kept, st.buffer = consumed ++ kept ∧
      get_context_for_llm st' =
        st.system_messages ++ cm.messages ++ kept ++ extra := by
  unfold compress at h
  by_cases h0 : st.buffer.length = 0
  · rw [if_pos h0] at h
    simp at h
  · rw [if_neg h0] at h
    have handle_full : compress_full est st (some cm) extra = (some out, st') →
        out = cm ∧ ∃ consumed kept, st.buffer = consumed ++ kept ∧
          get_context_for_llm st' =
            st.system_messages ++ cm.messages ++ kept ++ extra := by
      intro hf
      obtain ⟨g1, g2, g3⟩ := compress_full_success est st cm extra
      have hfst := congrArg Prod.fst hf
      rw [g1] at hfst
      simp at hfst
      have hsnd := congrArg Prod.snd hf
      simp at hsnd
      refine ⟨hfst.symm, st.buffer, [], by simp, ?_⟩
      unfold get_context_for_llm
      rw [← hsnd, g2, g3]
      simp
    have handle_partial : ∀ s, compress_partial_path est st s (some cm) extra = (some out, st') →
        out = cm ∧ ∃ consumed kept, st.buffer = consumed ++ kept ∧
          get_context_for_llm st' =
            st.system_messages ++ cm.messages ++ kept ++ extra := by
      intro s hp
      obtain ⟨g1, g2, g3⟩ := compress_partial_path_success est st s cm extra
      have hfst := congrArg Prod.fst hp
      rw [g1] at hfst
      simp at hfst
      have hsnd := congrArg Prod.snd hp
      simp at hsnd
      refine ⟨hfst.symm,
        st.buffer.take s, st.buffer.drop s, (List.take_append_drop s st.buffer).symm, ?_⟩
      unfold get_context_for_llm
      rw [← hsnd, g2, g3]
      simp
    by_cases hsoft : urgency = Urgency.soft ∧ 4 < st.buffer.length
    · rw [if_pos hsoft] at h
      by_cases hsplit : 0 < find_safe_split_point pairs st.buffer.length ∧
          find_safe_split_point pairs st.buffer.length < st.buffer.length
      · rw [if_pos hsplit] at h
        exact handle_partial _ h
      · rw [if_neg hsplit] at h
        exact handle_full h
    · rw [if_neg hsoft] at h
      exact handle_full h

/-- Witness for C1: a concrete successful full compression of a one-message
buffer splices the context to `summary ++ kept ++ extra`. -/
theorem compress_success_splice_witness :
    wit_cm = wit_cm ∧
    ∃ consumed kept, wit_compress_state.buffer = consumed ++ kept ∧
      get_context_for_llm
          ((compress wit_est wit_compress_state Urgency.hard [] (some wit_cm) []).2) =
        wit_compress_state.system_messages ++ wit_cm.messages ++ kept ++ [] :=
  compress_success_splice wit_est wit_compress_state Urgency.hard [] wit_cm []
    wit_cm ((compress wit_est wit_compress_state Urgency.hard [] (some wit_cm) []).2) rfl

/-- **C5.** If the summariser raises during compression (either path),
`compress` returns `None` and — absent concurrent appends — the whole
coordinator state is exactly as before the call; with concurrent appends
only those appends remain in the buffer and every other field is untouched. -/
theorem compress_failure_no_change (est : LLMMessage → ℕ) (st : ManagerState)
    (urgency : Urgency) (pairs : List (ℕ × ℕ)) (extra : List LLMMessage) :
    compress est st urgency pairs none [] = (none, st) ∧
    compress est st urgency pairs none extra =
      (none, if st.buffer.length = 0 then st
             else { st with buffer := st.buffer ++ extra }) := by
  have hgen : ∀ ex : List LLMMessage,
      compress est st urgency pairs none ex =
        (none, if st.buffer.length = 0 then st
               else { st with buffer := st.buffer ++ ex }) := by
    intro ex
    simp only [compress]
    by_cases h0 : st.buffer.length = 0
    · rw [if_pos h0, if_pos h0]
    · rw [if_neg h0, if_neg h0]
      by_cases hsoft : urgency = Urgency.soft ∧ 4 < st.buffer.length
      · rw [if_pos hsoft]
        by_cases hsplit : 0 < find_safe_split_point pairs st.buffer.length ∧
            find_safe_split_point pairs st.buffer.length < st.buffer.length
        · rw [if_pos hsplit]
          simp only [compress_partial_path]
        · rw [if_neg hsplit]
          simp only [compress_full]
      · rw [if_neg hsoft]
        simp only [compress_full]
  constructor
  · rw [hgen []]
    by_cases h0 : st.buffer.length = 0
    · rw [if_pos h0]
    · rw [if_neg h0]
      rw [List.append_nil]
  · exact hgen extra

lemma update_last (est : LLMMessage → ℕ) (st : ManagerState) :
    (update_current_tokens est st).last_api_context_tokens =
      st.last_api_context_tokens := by
  unfold update_current_tokens
  rcases hl : st.last_api_context_tokens with _ | x <;> simp only [hl]

lemma update_delta (est : LLMMessage → ℕ) (st : ManagerState) :
    (update_current_tokens est st).estimated_delta_tokens =
      st.estimated_delta_tokens := by
  unfold update_current_tokens
  rcases hl : st.last_api_context_tokens with _ | x <;> simp only [hl]

lemma update_created (est : LLMMessage → ℕ) (st : ManagerState) :
    (update_current_tokens est st).session_created = st.session_created := by
  unfold update_current_tokens
  rcases hl : st.last_api_context_tokens with _ | x <;> simp only [hl]

lemma update_calls (est : LLMMessage → ℕ) (st : ManagerState) :
    (update_current_tokens est st).create_session_calls =
      st.create_session_calls := by
  unfold update_current_tokens
  rcases hl : st.last_api_context_tokens with _ | x <;> simp only [hl]

lemma update_current_of_some (est : LLMMessage → ℕ) (st : ManagerState) (x : ℕ)
    (h : st.last_api_context_tokens = some x) :
    (update_current_tokens est st).current_tokens =
      x + st.estimated_delta_tokens := by
  unfold update_current_tokens
  simp only [h]

lemma ensure_session_created (st : ManagerState) :
    (ensure_session st).session_created = true := by
  unfold ensure_session
  split_ifs with h
  · exact h
  · rfl

lemma ensure_session_calls (st : ManagerState) :
    (ensure_session st).create_session_calls =
      if st.session_created then st.create_session_calls
      else st.create_session_calls + 1 := by
  unfold ensure_session
  split_ifs <;> rfl

lemma ensure_session_last (st : ManagerState) :
    (ensure_session st).last_api_context_tokens = st.last_api_context_tokens := by
  unfold ensure_session
  split_ifs <;> rfl

lemma ensure_session_delta (st : ManagerState) :
    (ensure_session st).estimated_delta_tokens = st.estimated_delta_tokens := by
  unfold ensure_session
  split_ifs <;> rfl

lemma add_message_created (est : LLMMessage → ℕ) (st : ManagerState)
    (m : LLMMessage) (a : Option (ℕ × ℕ)) :
    (add_message est st m a).session_created = true := by
  unfold add_message
  by_cases hr : m.role = Role.system
  · rw [if_pos hr]
    exact ensure_session_created st
  · rw [if_neg hr]
    rcases a with _ | ⟨i, o⟩ <;>
      simp only [update_created] <;> exact ensure_session_created st

lemma add_message_calls (est : LLMMessage → ℕ) (st : ManagerState)
    (m : LLMMessage) (a : Option (ℕ × ℕ)) :
    (add_message est st m a).create_session_calls =
      (ensure_session st).create_session_calls := by
  unfold add_message
  by_cases hr : m.role = Role.system
  · rw [if_pos hr]
  · rw [if_neg hr]
    rcases a with _ | ⟨i, o⟩ <;> simp only [update_calls]

/-- **C2 (counterexample).** A freshly constructed coordinator invokes
`create_session` already on a system-only `add_message`: `_ensure_session()`
runs before the system-role check in `add_message`, so adding only
system-role messages does create a session, contrary to the claim. -/
theorem system_only_add_message_creates_session :
    ({ role := Role.system, content := some "you are helpful" } : LLMMessage).role
        = Role.system ∧
    initial_manager_state.create_session_calls = 0 ∧
    (add_message (fun _ => 0) initial_manager_state
        { role := Role.system, content := some "you are helpful" }
        none).create_session_calls = 1 :=
  ⟨rfl, rfl, rfl⟩

lemma add_messages_keep (est : LLMMessage → ℕ)
    (calls : List (LLMMessage × Option (ℕ × ℕ))) (st : ManagerState)
    (h : st.session_created = true) :
    (add_messages est st calls).session_created = true ∧
    (add_messages est st calls).create_session_calls = st.create_session_calls := by
  induction calls generalizing st with
  | nil => exact ⟨h, rfl⟩
  | cons hd tl ih =>
    obtain ⟨m, a⟩ := hd
    have hkeep : (ensure_session st).create_session_calls = st.create_session_calls := by
      rw [ensure_session_calls, if_pos h]
    obtain ⟨ih1, ih2⟩ := ih (add_message est st m a) (add_message_created est st m a)
    exact ⟨ih1, by rw [show add_messages est st ((m, a) :: tl) =
        add_messages est (add_message est st m a) tl from rfl, ih2,
      add_message_calls, hkeep]⟩

/-- **C2 (amended).** Sessions are created lazily and exactly once, but on
the first `add_message` of any role (system included): with no `add_message`
calls the coordinator never invokes `create_session`, and any non-empty call
sequence invokes it exactly once. -/
theorem session_created_on_first_add_message (est : LLMMessage → ℕ)
    (calls : List (LLMMessage × Option (ℕ × ℕ))) :
    (add_messages est initial_manager_state calls).create_session_calls =
      (if calls.isEmpty then 0 else 1) := by
  cases calls with
  | nil => rfl
  | cons hd tl =>
    obtain ⟨m, a⟩ := hd
    have h1 : (add_message est initial_manager_state m a).session_created = true :=
      add_message_created est initial_manager_state m a
    have h2 : (add_message est initial_manager_state m a).create_session_calls = 1 := by
      rw [add_message_calls]
      rfl
    obtain ⟨_, hc⟩ := add_messages_keep est tl (add_message est initial_manager_state m a) h1
    show (add_messages est (add_message est initial_manager_state m a) tl).create_session_calls
      = if ((m, a) :: tl).isEmpty then 0 else 1
    rw [hc, h2]
    rfl

/-- **C6 (counterexample).** When `actual_tokens=(1,2)` accompanies a
system-role message, the accountant is not updated: `add_message` returns
before the token-accounting block, leaving `last_api_context_tokens` at
`None` instead of the claimed `1+2`. -/
theorem system_message_skips_accounting :
    (add_message (fun _ => 0) initial_manager_state
        { role := Role.system, content := some "sys" }
        (some (1, 2))).last_api_context_tokens = none ∧
    (add_message (fun _ => 0) initial_manager_state
        { role := Role.system, content := some "sys" }
        (some (1, 2))).last_api_context_tokens ≠ some (1 + 2) :=
  ⟨rfl, by decide⟩

/-- **C6 (amended).** For every `add_message` call with a non-system
message: when `actual_tokens=(i,o)` is supplied the accountant sets
`last_api_context_tokens := i+o` and resets `estimated_delta_tokens := 0`
(so the reported context size is `i+o`); when it is not supplied,
`estimated_delta_tokens` grows by the estimate of that single message and
`last_api_context_tokens` is unchanged; and whenever
`last_api_context_tokens = x` is known after the call, the reported
`current_tokens` equals `x + estimated_delta_tokens`. -/
theorem add_message_token_accounting (est : LLMMessage → ℕ) (st : ManagerState)
    (message : LLMMessage) (h : message.role ≠ Role.system) :
    (∀ i o,
      (add_message est st message (some (i, o))).last_api_context_tokens
          = some (i + o) ∧
      (add_message est st message (some (i, o))).estimated_delta_tokens = 0 ∧
      (add_message est st message (some (i, o))).current_tokens = i + o) ∧
    ((add_message est st message none).estimated_delta_tokens =
        st.estimated_delta_tokens + est message ∧
      (add_message est st message none).last_api_context_tokens =
        st.last_api_context_tokens) ∧
    (∀ a x,
      (add_message est st message a).last_api_context_tokens = some x →
      (add_message est st message a).current_tokens =
        x + (add_message est st message a).estimated_delta_tokens) := by
  have hsome : ∀ i o : ℕ,
      (add_message est st message (some (i, o))).last_api_context_tokens
          = some (i + o) ∧
      (add_message est st message (some (i, o))).estimated_delta_tokens = 0 ∧
      (add_message est st message (some (i, o))).current_tokens = i + o := by
    intro i o
    unfold add_message
    rw [if_neg h]
    refine ⟨by rw [update_last], by rw [update_delta], ?_⟩
    rw [update_current_of_some _ _ (i + o) rfl]
    rfl
  have hnone :
      (add_message est st message none).estimated_delta_tokens =
        st.estimated_delta_tokens + est message ∧
      (add_message est st message none).last_api_context_tokens =
        st.last_api_context_tokens := by
    unfold add_message
    rw [if_neg h]
    constructor
    · rw [update_delta]
      show (ensure_session st).estimated_delta_tokens + est message = _
      rw [ensure_session_delta]
    · rw [update_last]
      exact ensure_session_last st
  refine ⟨hsome, hnone, fun a x hx => ?_⟩
  rcases a with _ | ⟨i, o⟩
  · unfold add_message at hx ⊢
    rw [if_neg h] at hx ⊢
    rw [update_last] at hx
    rw [update_current_of_some _ _ x hx, update_delta]
  · obtain ⟨g1, g2, g3⟩ := hsome i o
    rw [g1] at hx
    injection hx with hx
    rw [g2, g3, ← hx]
    rfl

/-- Witness for C6 (amended) at a user message with `actual_tokens=(42,5)`. -/
theorem add_message_token_accounting_witness :
    (add_message (fun _ => 5) initial_manager_state
        { role := Role.user, content := some "hi" }
        (some (42, 5))).last_api_context_tokens = some (42 + 5) :=
  ((add_message_token_accounting (fun _ => 5) initial_manager_state
      { role := Role.user, content := some "hi" } (by decide)).1 42 5).1

lemma remove_last_one (msgs : List LLMMessage) :
    remove_last 1 msgs = msgs.dropLast := by
  rw [remove_last_eq, List.dropLast_eq_take]

lemma rollback_of_none (est : LLMMessage → ℕ) (st : ManagerState)
    (h : st.buffer.getLast? = none) :
    rollback_incomplete_exchange est st = st := by
  unfold rollback_incomplete_exchange
  rw [h]

lemma rollback_of_some_neg (est : LLMMessage → ℕ) (st : ManagerState)
    (a : LLMMessage) (ha : st.buffer.getLast? = some a)
    (hcond : ¬ (a.role = Role.assistant ∧ message_has_tool_calls a = true)) :
    rollback_incomplete_exchange est st = st := by
  unfold rollback_incomplete_exchange
  simp only [ha]
  rw [if_neg hcond]

lemma rollback_of_some_pos (est : LLMMessage → ℕ) (st : ManagerState)
    (a : LLMMessage) (ha : st.buffer.getLast? = some a)
    (hcond : a.role = Role.assistant ∧ message_has_tool_calls a = true) :
    rollback_incomplete_exchange est st =
      { st with
        buffer := remove_last 1 st.buffer,
        current_tokens := recalculate_current_tokens est
          { st with buffer := remove_last 1 st.buffer } } := by
  unfold rollback_incomplete_exchange
  simp only [ha]
  rw [if_pos hcond]

lemma cond_iff (a : LLMMessage) (hr : a.role = Role.assistant) :
    message_has_tool_calls a = true ↔ a.tool_calls ≠ [] := by
  have hbt : (Role.assistant == Role.tool) = false := rfl
  unfold message_has_tool_calls content_has_tool_calls
  rw [hr, hbt]
  simp [List.isEmpty_iff]

/-- **C9 (counterexample).** On a buffer ending in two assistant messages
that both carry tool calls, one rollback removes only the last, the second
removes another: calling rollback twice does not leave the same buffer as
calling it once. -/
theorem rollback_not_idempotent_counterexample :
    (rollback_incomplete_exchange wit_est
        (rollback_incomplete_exchange wit_est wit_double_incomplete)).buffer ≠
      (rollback_incomplete_exchange wit_est wit_double_incomplete).buffer := by
  decide

/-- **C9 (amended).** Provided the buffer does not end in two consecutive
assistant messages carrying tool calls (any state respecting the tool-pair
invariant qualifies), `rollback_incomplete_exchange` is idempotent; and one
call removes exactly the last message when that message is an assistant
message with tool calls, while any other last message (or an empty buffer)
leaves the state unchanged. -/
theorem rollback_idempotent_spec (est : LLMMessage → ℕ) (st : ManagerState)
    (h : trailing_incomplete_pair st.buffer = false) :
    rollback_incomplete_exchange est (rollback_incomplete_exchange est st) =
      rollback_incomplete_exchange est st ∧
    (∀ a, st.buffer.getLast? = some a →
      ((a.role = Role.assistant ∧ a.tool_calls ≠ []) →
        (rollback_incomplete_exchange est st).buffer = st.buffer.dropLast) ∧
      (¬ (a.role = Role.assistant ∧ a.tool_calls ≠ []) →
        rollback_incomplete_exchange est st = st)) ∧
    (st.buffer = [] → rollback_incomplete_exchange est st = st) := by
  refine ⟨?_, ?_, ?_⟩
  · cases hl : st.buffer.getLast? with
    | none =>
      rw [rollback_of_none est st hl, rollback_of_none est st hl]
    | some a =>
      by_cases hcond : a.role = Role.assistant ∧ message_has_tool_calls a = true
      · rw [rollback_of_some_pos est st a hl hcond]
        cases hl2 : (remove_last 1 st.buffer).getLast? with
        | none => exact rollback_of_none est _ hl2
        | some b =>
          rw [remove_last_one] at hl2
          have hia : incomplete_assistant a = true := by
            unfold incomplete_assistant
            rw [hcond.1, hcond.2]
            rfl
          have hib : incomplete_assistant b = false := by
            unfold trailing_incomplete_pair at h
            simp only [hl, hl2, hia] at h
            simpa using h
          refine rollback_of_some_neg est _ b ?_ ?_
          · show (remove_last 1 st.buffer).getLast? = some b
            rw [remove_last_one]
            exact hl2
          · rintro ⟨h1, h2⟩
            have hbt : incomplete_assistant b = true := by
              unfold incomplete_assistant
              rw [h1, h2]
              rfl
            rw [hbt] at hib
            cases hib
      · rw [rollback_of_some_neg est st a hl hcond]
        exact rollback_of_some_neg est st a hl hcond
  · intro a ha
    constructor
    · intro hc
      have hcond : a.role = Role.assistant ∧ message_has_tool_calls a = true :=
        ⟨hc.1, (cond_iff a hc.1).mpr hc.2⟩
      rw [rollback_of_some_pos est st a ha hcond]
      exact remove_last_one st.buffer
    · intro hc
      have hcond : ¬ (a.role = Role.assistant ∧ message_has_tool_calls a = true) :=
        fun hx => hc ⟨hx.1, (cond_iff a hx.1).mp hx.2⟩
      exact rollback_of_some_neg est st a ha hcond
  · intro hb
    exact rollback_of_none est st (by rw [hb]; rfl)

/-- Witness for C9 (amended): a buffer `[user, assistant-with-tool-calls]`
satisfies the hypothesis; rollback is idempotent on it and one call drops
exactly the trailing assistant message. -/
theorem rollback_idempotent_spec_witness :
    rollback_incomplete_exchange wit_est
        (rollback_incomplete_exchange wit_est wit_rollback_state) =
      rollback_incomplete_exchange wit_est wit_rollback_state ∧
    (rollback_incomplete_exchange wit_est wit_rollback_state).buffer =
      wit_rollback_state.buffer.dropLast :=
  ⟨(rollback_idempotent_spec wit_est wit_rollback_state (by decide)).1,
   ((rollback_idempotent_spec wit_est wit_rollback_state (by decide)).2.1 wit_tc_msg
      (by decide)).1 (by decide)⟩

end Aloop
